import Mathlib

/-
Verification development for the reset-db seeding script.

The script (src/index.js) reads a static configuration (src/config.js,
mirrored here from the repository), validates the MongoDB URI sources,
resolves per-collection values from inline config or an imported file,
and then either performs a destructive run (deleteMany across all
collections, then insertMany across all collections) or a dry run
(countDocuments only).

The embedding below models JavaScript values with the inductive JVal,
so that truthiness, nullish coalescing, optional chaining and the
TypeError raised by member access on undefined are represented
faithfully.  Asynchronous behaviour is modelled as event traces; the
concurrency between the readline prompt callback and the immediately
started run promise is modelled as an interleaving relation.  The log
level is the repository default (debug), at which all the orchestration
wrappers forward values unchanged; logging calls are modelled through
the result constructors that record which error branch was taken.
-/

set_option maxRecDepth 4000

namespace ResetDb

/-- Model of a JavaScript runtime value, covering the shapes that occur in
the script: undefined, null, booleans, numbers, strings, arrays, objects. -/
inductive JVal where
  | undefined : JVal
  | nullv : JVal
  | bool : Bool → JVal
  | num : Int → JVal
  | str : String → JVal
  | arr : List JVal → JVal
  | obj : List (String × JVal) → JVal

/-- JavaScript truthiness: undefined, null, false, 0 and the empty string are
falsy; arrays and objects are always truthy. -/
def truthy : JVal → Bool
  | .undefined => false
  | .nullv => false
  | .bool b => b
  | .num n => n != 0
  | .str s => s != ""
  | .arr _ => true
  | .obj _ => true

/-- A value is nullish when it is undefined or null (the values treated
specially by the ?? and ?. operators). -/
def nullish : JVal → Bool
  | .undefined => true
  | .nullv => true
  | _ => false

/-- JavaScript nullish coalescing a ?? b. -/
def jsOr (a b : JVal) : JVal := if nullish a then b else a

/-- Property read on a value that is known not to be nullish (objects look up
the field list, arrays and strings expose length, anything else yields
undefined).  Member access on undefined or null instead throws; the callers
below model that case explicitly before using this function. -/
def objGet : JVal → String → JVal
  | .obj fields, k =>
      match fields.find? (fun f => f.1 == k) with
      | some f => f.2
      | none => .undefined
  | .arr xs, k => if k == "length" then .num (Int.ofNat xs.length) else .undefined
  | .str s, k => if k == "length" then .num (Int.ofNat s.length) else .undefined
  | _, _ => .undefined

/-- Optional chaining v?.k: undefined when the receiver is nullish, an
ordinary property read otherwise. -/
def jsOptMember (v : JVal) (k : String) : JVal :=
  if nullish v then .undefined else objGet v k

/-- JavaScript strict equality.  Values of different runtime types are never
strictly equal; objects and arrays compare by reference, and the only such
comparison performed by the script is against the freshly allocated iterator
result of Set.values().next(), which can never be identical to a
pre-existing value, so the object/object case is reference-distinct. -/
def jsStrictEq : JVal → JVal → Bool
  | .undefined, .undefined => true
  | .nullv, .nullv => true
  | .bool a, .bool b => a == b
  | .num a, .num b => a == b
  | .str a, .str b => a == b
  | _, _ => false

/-! ### validatePath (src/index.js lines 102-119) -/

/-- Index of the first occurrence of a character in a list, used on the
reversed character list to model String.prototype.lastIndexOf. -/
def firstIdxFrom : List Char → Char → Option Nat
  | [], _ => none
  | a :: as, c => if a == c then some 0 else (firstIdxFrom as c).map (fun i => i + 1)

/-- Model of path.lastIndexOf(c): the greatest index of c in path, or -1. -/
def lastIndexOf (s : String) (c : Char) : Int :=
  match firstIdxFrom s.toList.reverse c with
  | none => -1
  | some i => (s.toList.length : Int) - 1 - (i : Int)

/-- Model of path.slice(i) for a non-negative start index. -/
def sliceFrom (s : String) (i : Nat) : String := String.mk (s.toList.drop i)

def allowedExtensions : List String := ["json", "js", "mjs"]

/-- Result of validatePath: whether the path was accepted, and which log
calls the function made on the way. -/
structure PathCheck where
  ok : Bool
  loggedInvalidExtension : Bool
  warnedCjs : Bool

/-- Model of validatePath: the extension is the slice after the last dot;
the path is rejected when it has no dot at all or when the extension is not
one of json, js, mjs, and in that case logError is called (plus a CommonJS
warning when the extension is cjs). -/
def validatePath (path : String) : PathCheck :=
  let extension := sliceFrom path (lastIndexOf path '.' + 1).toNat
  if lastIndexOf path '.' == -1 || !(allowedExtensions.contains extension) then
    ⟨false, true, extension == "cjs"⟩
  else ⟨true, false, false⟩

/-! Specification-side formulations for C9, written independently of the
implementation above: a path has a dot, and the extension is the suffix of
characters after the last dot. -/

/-- Whether the path contains a dot character at all. -/
def hasDot (s : String) : Bool := s.toList.any (fun c => c == '.')

/-- The substring after the last dot: the longest suffix without a dot,
computed as the reversed dot-free prefix of the reversed characters. -/
def extensionAfterLastDot (s : String) : String :=
  String.mk ((s.toList.reverse.takeWhile (fun c => c != '.')).reverse)

theorem firstIdxFrom_eq_none_iff (l : List Char) (c : Char) :
    firstIdxFrom l c = none ↔ ∀ a ∈ l, ¬ (a = c) := by
  induction l with
  | nil => simp [firstIdxFrom]
  | cons a as ih =>
      by_cases h : a = c
      · simp [firstIdxFrom, h]
      · simp [firstIdxFrom, h, ih]

theorem firstIdxFrom_lt_length (l : List Char) (c : Char) (i : Nat)
    (h : firstIdxFrom l c = some i) : i < l.length := by
  induction l generalizing i with
  | nil => simp [firstIdxFrom] at h
  | cons a as ih =>
      by_cases hac : a = c
      · simp [firstIdxFrom, hac] at h
        simp only [List.length_cons]
        omega
      · simp [firstIdxFrom, hac] at h
        obtain ⟨j, hj, rfl⟩ := h
        have := ih j hj
        simp only [List.length_cons]
        omega

theorem firstIdxFrom_takeWhile (l : List Char) (c : Char) (i : Nat)
    (h : firstIdxFrom l c = some i) :
    l.takeWhile (fun a => a != c) = l.take i := by
  induction l generalizing i with
  | nil => simp [firstIdxFrom] at h
  | cons a as ih =>
      by_cases hac : a = c
      · simp [firstIdxFrom, hac] at h
        subst h
        simp [List.takeWhile, hac]
      · simp [firstIdxFrom, hac] at h
        obtain ⟨j, hj, rfl⟩ := h
        have hb : (a != c) = true := bne_iff_ne.mpr hac
        simp [List.takeWhile, hac, hb, ih j hj]

theorem sliceFrom_lastIndexOf_eq (s : String) :
    sliceFrom s (lastIndexOf s '.' + 1).toNat = extensionAfterLastDot s := by
  unfold sliceFrom lastIndexOf extensionAfterLastDot
  cases h : firstIdxFrom s.toList.reverse '.' with
  | none =>
      have hall : ∀ a ∈ s.toList.reverse, ¬ (a = '.') :=
        (firstIdxFrom_eq_none_iff _ _).mp h
      have hself : s.toList.reverse.takeWhile (fun c => c != '.') = s.toList.reverse := by
        rw [List.takeWhile_eq_self_iff]
        intro x hx
        simpa using hall x hx
      simp only [String.toList] at hself
      simp [hself]
  | some i =>
      have hlt : i < s.toList.length := by
        have := firstIdxFrom_lt_length _ _ _ h
        simpa using this
      have htake := firstIdxFrom_takeWhile _ _ _ h
      rw [htake]
      have hnat : (((s.toList.length : Int)) - 1 - (i : Int) + 1).toNat
          = s.toList.length - i := by omega
      rw [hnat]
      have hrev : (s.toList.reverse.take i).reverse
          = s.toList.drop (s.toList.length - i) := by
        rw [List.reverse_take]
        simp
      rw [hrev]

theorem firstIdxFrom_mem (l : List Char) (c : Char) (i : Nat)
    (h : firstIdxFrom l c = some i) : c ∈ l := by
  induction l generalizing i with
  | nil => simp [firstIdxFrom] at h
  | cons a as ih =>
      by_cases hac : a = c
      · simp [hac]
      · simp [firstIdxFrom, hac] at h
        obtain ⟨j, hj, _⟩ := h
        exact List.mem_cons_of_mem _ (ih j hj)

theorem lastIndexOf_eq_neg_one_iff (p : String) :
    lastIndexOf p '.' = -1 ↔ hasDot p = false := by
  unfold lastIndexOf
  cases h : firstIdxFrom p.toList.reverse '.' with
  | none =>
      have hall : ∀ a ∈ p.toList.reverse, ¬ (a = '.') :=
        (firstIdxFrom_eq_none_iff _ _).mp h
      have hnd : hasDot p = false := by
        simp only [hasDot]
        rw [Bool.eq_false_iff]
        intro hc
        rw [List.any_eq_true] at hc
        obtain ⟨x, hx, hx2⟩ := hc
        exact hall x (List.mem_reverse.mpr hx) (by simpa using hx2)
      simp [hnd]
  | some i =>
      have hlt : i < p.toList.length := by
        have := firstIdxFrom_lt_length _ _ _ h
        simpa using this
      have hlen : p.toList.length = p.length := rfl
      have hne : ¬ ((p.length : Int) - 1 - (i : Int) = -1) := by omega
      have hdt : hasDot p = true := by
        have hmem : '.' ∈ p.toList := List.mem_reverse.mp (firstIdxFrom_mem _ _ _ h)
        simp only [hasDot, List.any_eq_true]
        exact ⟨'.', hmem, by simp⟩
      simp [hdt, hne]

/-- C9: validatePath accepts a path exactly when the path contains a dot and
the substring after the last dot is json, js or mjs; every rejected path has
the invalid-extension error logged (and accepted paths do not). -/
theorem validatePath_accepts_iff_allowed_extension (p : String) :
    ((validatePath p).ok
      = (hasDot p && allowedExtensions.contains (extensionAfterLastDot p)))
    ∧ (validatePath p).loggedInvalidExtension = !(validatePath p).ok := by
  constructor
  · show (validatePath p).ok = _
    unfold validatePath
    rw [sliceFrom_lastIndexOf_eq]
    by_cases hd : hasDot p = true
    · have h1 : (lastIndexOf p '.' == -1) = false := by
        rw [beq_eq_false_iff_ne]
        intro he
        rw [lastIndexOf_eq_neg_one_iff] at he
        rw [hd] at he
        exact Bool.true_eq_false.mp he
      simp [h1, hd]
      split
      · next hmem => simp [hmem]
      · next hmem => simp [hmem]
    · simp only [Bool.not_eq_true] at hd
      have h1 : (lastIndexOf p '.' == -1) = true := by
        rw [beq_iff_eq, lastIndexOf_eq_neg_one_iff]
        exact hd
      simp [h1, hd]
  · show (validatePath p).loggedInvalidExtension = !(validatePath p).ok
    by_cases hcond : (lastIndexOf p '.' = -1
        ∨ sliceFrom p (lastIndexOf p '.' + 1).toNat ∉ allowedExtensions)
    · simp [validatePath, hcond]
    · simp [validatePath, hcond]

theorem validatePath_accepts_iff_allowed_extension_witness :
    ((validatePath "users.json").ok
      = (hasDot "users.json"
          && allowedExtensions.contains (extensionAfterLastDot "users.json")))
    ∧ (validatePath "users.json").loggedInvalidExtension
        = !(validatePath "users.json").ok :=
  validatePath_accepts_iff_allowed_extension "users.json"

/-! ### evaluateCollectionValues (src/index.js lines 121-163)

A collection entry of config.collections carries the four fields read by the
script; absent fields are the JavaScript value undefined.  Importing a path
is modelled by a partial map from path strings to module values; a path the
map does not know corresponds to an import that rejects (caught by the
script, which then returns null). -/

structure CollectionEntry where
  model : JVal
  schema : JVal
  path : JVal
  data : JVal

/-- Outcome of the async evaluateCollectionValues call: it can resolve with
null (invalid path or failed import), reject with a TypeError (property
access on the undefined importedValues when no path was given), or resolve
with the object of standard values. -/
inductive EvalOutcome where
  | nullResult : EvalOutcome
  | thrown : EvalOutcome
  | ok (standardData standardModel standardSchema : JVal) : EvalOutcome

/-- The pathValue passed for data: importedValues.default?.data ??
importedValues.default ?? importedValues.data. -/
def pathDataOf (importedValues : JVal) : JVal :=
  jsOr (jsOr (jsOptMember (objGet importedValues "default") "data")
             (objGet importedValues "default"))
       (objGet importedValues "data")

/-- The pathValue passed for model: importedValues.default?.model ??
importedValues.model. -/
def pathModelOf (importedValues : JVal) : JVal :=
  jsOr (jsOptMember (objGet importedValues "default") "model")
       (objGet importedValues "model")

/-- The pathValue passed for schema: importedValues.default?.schema ??
importedValues.schema. -/
def pathSchemaOf (importedValues : JVal) : JVal :=
  jsOr (jsOptMember (objGet importedValues "default") "schema")
       (objGet importedValues "schema")

/-- getStandardValue: preferPath picks the path value with the config value
as fallback, otherwise the config value is used unconditionally. -/
def getStandardValue (preferPath : Bool) (configValue pathValue : JVal) : JVal :=
  if preferPath then jsOr pathValue configValue else configValue

/-- The trailing return object of evaluateCollectionValues.  When
importedValues is still undefined (no path was taken), the very first
property access importedValues.default throws a TypeError, rejecting the
promise. -/
def evalWithImported (preferPath : Bool) (importedValues data model schema : JVal) :
    EvalOutcome :=
  if nullish importedValues then .thrown
  else
    .ok (getStandardValue preferPath data (pathDataOf importedValues))
        (getStandardValue preferPath model (pathModelOf importedValues))
        (getStandardValue preferPath schema (pathSchemaOf importedValues))

/-- evaluateCollectionValues: with a truthy path the try block validates the
extension and imports the module, returning null on either failure (a truthy
non-string path throws inside the try when lastIndexOf is called on it, which
is caught and also yields null); with a falsy path importedValues stays
undefined and the final return throws. -/
def evaluateCollectionValues (preferPath : Bool) (modules : String → Option JVal)
    (path data model schema : JVal) : EvalOutcome :=
  if truthy path then
    match path with
    | .str s =>
        if !(validatePath s).ok then .nullResult
        else
          match modules s with
          | none => .nullResult
          | some importedValues =>
              evalWithImported preferPath importedValues data model schema
    | _ => .nullResult
  else evalWithImported preferPath .undefined data model schema

/-! ### Per-collection resolution inside modelsPromise (lines 217-266) -/

/-- What happens to one configured collection inside modelsPromise.  A
nullResult from evaluateCollectionValues is destructured by the script
(const with an object pattern applied to null), which throws and rejects the
whole modelsPromise; a thrown evaluation is caught by the attached catch and
only skips the collection. -/
inductive CollectionOutcome where
  | skippedNoDataOrPath : CollectionOutcome
  | skippedEvalThrew : CollectionOutcome
  | fatalNullDestructure : CollectionOutcome
  | skippedInvalidValues : CollectionOutcome
  | registered (name : String) (standardModel standardSchema standardData : JVal) :
      CollectionOutcome

/-- One iteration of the modelsPromise map over config.collections. -/
def resolveCollection (preferPath : Bool) (modules : String → Option JVal)
    (collectionName : String) (e : CollectionEntry) : CollectionOutcome :=
  if !(truthy (jsOptMember e.data "length")) && !(truthy e.path) then
    .skippedNoDataOrPath
  else
    match evaluateCollectionValues preferPath modules e.path e.data e.model e.schema with
    | .thrown => .skippedEvalThrew
    | .nullResult => .fatalNullDestructure
    | .ok standardData standardModel standardSchema =>
        if truthy standardData && truthy standardSchema && truthy standardModel then
          .registered collectionName standardModel standardSchema standardData
        else .skippedInvalidValues

/-! ### initialise (lines 165-280) -/

/-- The static configuration fields that drive the control flow, mirroring
src/config.js: the collections keep the insertion order of the object keys. -/
structure Config where
  noPrompt : Bool
  preferPath : Bool
  mongoUri : JVal
  collections : List (String × CollectionEntry)

/-- An entry of the standardCollections array: the collection name, the
arguments used to create the mongoose model, and the data to insert. -/
structure StandardCollection where
  name : String
  modelName : JVal
  modelSchema : JVal
  data : JVal

/-- The recognized environment variable names, in the order the script lists
them. -/
def uriEnvNames : List String := ["MONGO_URI", "MONGODB_URI", "mongoUri", "DB_URI", "DATABASE_URI"]

/-- The content of the Set built by initialise: the recognized names that are
present in process.env (note: the names, not their values). -/
def presentUriEnvNames (env : String → Option String) : List String :=
  uriEnvNames.filter (fun name => (env name).isSome)

/-- The iterator-result object returned by Set.values().next(): a fresh
object with value and done fields. -/
def setValuesNext (names : List String) : JVal :=
  match names with
  | [] => .obj [("value", .undefined), ("done", .bool true)]
  | n :: _ => .obj [("value", .str n), ("done", .bool false)]

/-- Result of initialise: the three throw sites, the rejection of
modelsPromise, or success carrying the connect URI and the registered
collections. -/
inductive InitResult where
  | errNoUri : InitResult
  | errMismatch : InitResult
  | errModelsRejected : InitResult
  | errNoCollections : InitResult
  | ok (connectUri : JVal) (standardCollections : List StandardCollection) : InitResult

/-- The standardCollections array accumulated by the modelsPromise map. -/
def registeredCollections (outcomes : List CollectionOutcome) : List StandardCollection :=
  outcomes.filterMap (fun o =>
    match o with
    | .registered n m s d => some ⟨n, m, s, d⟩
    | _ => none)

/-- Model of initialise: URI guards, the connect argument, the per-collection
resolution, and the final no-valid-collections check. -/
def initialise (cfg : Config) (env : String → Option String)
    (modules : String → Option JVal) : InitResult :=
  let names := presentUriEnvNames env
  if !(truthy cfg.mongoUri) && (names.length == 0) then .errNoUri
  else if (decide (1 < names.length))
      || ((names.length != 0) && !(jsStrictEq cfg.mongoUri (setValuesNext names))) then
    .errMismatch
  else
    let mongoUri := jsOr cfg.mongoUri (setValuesNext names)
    let connectUri := jsOr mongoUri
      (match uriEnvNames.find? (fun n => (env n).isSome) with
       | some n => (match env n with | some v => JVal.str v | none => JVal.undefined)
       | none => JVal.undefined)
    let outcomes := cfg.collections.map
      (fun c => resolveCollection cfg.preferPath modules c.1 c.2)
    if outcomes.any (fun o => o matches .fatalNullDestructure) then .errModelsRejected
    else
      let standardCollections := registeredCollections outcomes
      if standardCollections.length == 0 then .errNoCollections
      else .ok connectUri standardCollections

/-! Specification-side helpers describing the URI values actually supplied
across the config field and the environment, for claims C3 and C4. -/

/-- All URI values supplied: the config string if any, then the values of the
recognized environment variables that are set. -/
def suppliedUris (cfg : Config) (env : String → Option String) : List String :=
  (match cfg.mongoUri with | .str s => [s] | _ => []) ++ uriEnvNames.filterMap env

/-- Number of distinct strings in a list. -/
def countDistinct : List String → Nat
  | [] => 0
  | a :: as => (if a ∈ as then 0 else 1) + countDistinct as

theorem nullish_eq_false_of_truthy (v : JVal) (h : truthy v = true) :
    nullish v = false := by
  cases v <;> simp_all [truthy, nullish]

/-! ### Claim C2 -/

/-- C2 (code bug): a collection with truthy inline data (data?.length passes
the guard) but a falsy path is never registered: evaluateCollectionValues
leaves importedValues undefined, the final property access throws, the catch
turns the rejection into an error marker, and the collection is skipped. -/
theorem inline_data_collection_never_registered
    (preferPath : Bool) (modules : String → Option JVal) (n : String)
    (e : CollectionEntry)
    (hlen : truthy (jsOptMember e.data "length") = true)
    (hpath : truthy e.path = false) :
    resolveCollection preferPath modules n e = .skippedEvalThrew := by
  simp [resolveCollection, hlen, hpath, evaluateCollectionValues, evalWithImported, nullish]

/-- The repository example collection written with inline data only: schema,
model name, one data document, no path. -/
def entryInline : CollectionEntry :=
  ⟨.str "modelName", .obj [("fieldName", .str "String")], .undefined,
    .arr [.obj [("fieldName", .str "value")]]⟩

theorem inline_data_collection_never_registered_witness :
    truthy (jsOptMember entryInline.data "length") = true
    ∧ truthy entryInline.path = false
    ∧ resolveCollection true (fun _ => none) "collectionName" entryInline
        = .skippedEvalThrew :=
  ⟨rfl, rfl,
    inline_data_collection_never_registered true (fun _ => none) "collectionName"
      entryInline rfl rfl⟩

/-! ### Claim C3 -/

/-- A config whose mongoUri equals the single environment value. -/
def cfgSameUri : Config :=
  ⟨false, true, .str "mongodb://localhost:27017/my-database", []⟩

/-- An environment supplying only MONGO_URI, with the same value as the
config. -/
def envSameUri : String → Option String :=
  fun n => if n == "MONGO_URI" then some "mongodb://localhost:27017/my-database" else none

/-- C3 (code bug): the config URI and the single recognized environment
variable agree, so exactly one distinct URI value is supplied, yet initialise
reports the mismatch error and aborts: the Set is built from variable names
rather than their values, and the code compares the config string against the
iterator-result object of values().next(), which is never strictly equal. -/
theorem matching_uris_still_reported_as_mismatch :
    countDistinct (suppliedUris cfgSameUri envSameUri) = 1
    ∧ initialise cfgSameUri envSameUri (fun _ => none) = .errMismatch :=
  ⟨rfl, rfl⟩

/-! ### Claim C4 -/

/-- C4 (code bug): with the config URI unset and exactly one recognized
environment variable present, initialise reports the URI mismatch error and
aborts instead of connecting with that value. -/
theorem env_only_uri_rejected (cfg : Config) (env : String → Option String)
    (modules : String → Option JVal)
    (hcfg : cfg.mongoUri = .undefined)
    (henv : (presentUriEnvNames env).length = 1) :
    initialise cfg env modules = .errMismatch := by
  obtain ⟨n, hn⟩ := List.length_eq_one.mp henv
  simp [initialise, hn, hcfg, truthy, jsStrictEq, setValuesNext]

/-- An environment supplying only MONGO_URI. -/
def envMongoOnly : String → Option String :=
  fun n => if n == "MONGO_URI" then some "mongodb://localhost:27017/seed" else none

/-- A config without a mongoUri field. -/
def cfgNoUri : Config := ⟨false, true, .undefined, []⟩

theorem env_only_uri_rejected_witness :
    cfgNoUri.mongoUri = .undefined
    ∧ (presentUriEnvNames envMongoOnly).length = 1
    ∧ initialise cfgNoUri envMongoOnly (fun _ => none) = .errMismatch :=
  ⟨rfl, rfl, env_only_uri_rejected cfgNoUri envMongoOnly (fun _ => none) rfl rfl⟩

/-! ### Claim C8 -/

/-- A module as exported by a seed file: default export with data, model and
schema fields. -/
def moduleSeed : JVal :=
  .obj [("default", .obj [("data", .arr [.obj [("fieldName", .str "value")]]),
                           ("model", .str "modelName"),
                           ("schema", .obj [("fieldName", .str "String")])])]

/-- A module map knowing exactly the seed file. -/
def modulesSeed : String → Option JVal :=
  fun s => if s == "seed.mjs" then some moduleSeed else none

/-- A collection entry that supplies its values through the path alone. -/
def entryPathOnly : CollectionEntry := ⟨.undefined, .undefined, .str "seed.mjs", .undefined⟩

/-- C8 counterexample: a collection that supplies its values via the path
alone does not resolve under preferPath false; it is rejected with invalid
data, schema or model, refuting the claim that it resolves under either
setting. -/
theorem path_only_collection_rejected_without_preferPath :
    resolveCollection false modulesSeed "collectionName" entryPathOnly
      = .skippedInvalidValues := rfl

/-- A module that supplies data and schema through its default export but no
model, to exercise the inline fill-in of the merge. -/
def moduleExtra : JVal :=
  .obj [("default", .obj [("data", .arr [.obj [("fieldName", .str "value")]]),
                           ("schema", .obj [("fieldName", .str "String")])])]

/-- A module map knowing exactly extra.mjs. -/
def modulesExtra : String → Option JVal :=
  fun s => if s == "extra.mjs" then some moduleExtra else none

/-- C8 (amended): when the path is valid and its module loads, the merge
follows the preferPath flag for arbitrary inline values: with preferPath
true each standard value is the path-derived value, and the inline value is
used exactly where the path supplies none (a nullish path value); with
preferPath false the inline values are used unconditionally.  Consequently a
collection that supplies its values via the path alone registers under
preferPath true, while under preferPath false it is rejected (see the
counterexample). -/
theorem preferPath_merge_semantics
    (preferPath : Bool) (modules : String → Option JVal) (s : String) (iv : JVal)
    (data model schema : JVal)
    (hok : (validatePath s).ok = true)
    (hmod : modules s = some iv)
    (hobj : nullish iv = false) :
    evaluateCollectionValues preferPath modules (.str s) data model schema
      = .ok (if preferPath then
              (if nullish (pathDataOf iv) then data else pathDataOf iv) else data)
            (if preferPath then
              (if nullish (pathModelOf iv) then model else pathModelOf iv) else model)
            (if preferPath then
              (if nullish (pathSchemaOf iv) then schema else pathSchemaOf iv) else schema)
    ∧ resolveCollection true modulesSeed "collectionName" entryPathOnly
        = .registered "collectionName" (pathModelOf moduleSeed) (pathSchemaOf moduleSeed)
            (pathDataOf moduleSeed) := by
  have hs0 : s ≠ "" := by
    intro h0
    have hfalse : (validatePath "").ok = false := rfl
    rw [h0] at hok
    exact Bool.true_eq_false.mp (hok.symm.trans hfalse)
  have hsb : (s != "") = true := bne_iff_ne.mpr hs0
  have hps : truthy (JVal.str s) = true := by simp [truthy, hsb]
  constructor
  · simp [evaluateCollectionValues, hps, hok, hmod, evalWithImported, hobj,
      getStandardValue, jsOr]
  · rfl

theorem preferPath_merge_semantics_witness :
    (evaluateCollectionValues true modulesExtra (.str "extra.mjs")
        .undefined (.str "inlineModel") .undefined
      = .ok (pathDataOf moduleExtra) (.str "inlineModel") (pathSchemaOf moduleExtra))
    ∧ (evaluateCollectionValues false modulesExtra (.str "extra.mjs")
        .undefined (.str "inlineModel") .undefined
      = .ok .undefined (.str "inlineModel") .undefined) :=
  ⟨(preferPath_merge_semantics true modulesExtra "extra.mjs" moduleExtra
      .undefined (.str "inlineModel") .undefined rfl rfl rfl).1.trans rfl,
   (preferPath_merge_semantics false modulesExtra "extra.mjs" moduleExtra
      .undefined (.str "inlineModel") .undefined rfl rfl rfl).1.trans rfl⟩

/-! ### Event traces for run, dryRun and startRun (lines 282-391)

Database calls and process-level events are recorded as trace events.  The
Promise.all in run issues every deleteMany synchronously, awaits all the
completions (which arrive in an order chosen by the scheduler), and only
then issues the insertMany calls; dryRun issues countDocuments only.  The
completion orders are passed in as parameters of the trace. -/

inductive Ev where
  | connect : Ev
  | deleteManyCall (collection : String) : Ev
  | deleteManyDone (collection : String) : Ev
  | insertManyCall (collection : String) : Ev
  | insertManyDone (collection : String) : Ev
  | countCall (collection : String) : Ev
  | countDone (collection : String) : Ev
  | promptShown : Ev
  | answerDelivered (answer : String) : Ev
  | exit (code : Nat) : Ev
  deriving DecidableEq

/-- Phase number of an event inside the run pipeline: connect, then delete
calls, delete completions, insert calls, insert completions.  Events outside
that pipeline get a high phase. -/
def phase : Ev → Nat
  | .connect => 0
  | .deleteManyCall _ => 1
  | .deleteManyDone _ => 2
  | .insertManyCall _ => 3
  | .insertManyDone _ => 4
  | .countCall _ => 5
  | .countDone _ => 6
  | .promptShown => 9
  | .answerDelivered _ => 9
  | .exit _ => 9

/-- Whether an event mutates the database. -/
def isMutation : Ev → Bool
  | .deleteManyCall _ => true
  | .deleteManyDone _ => true
  | .insertManyCall _ => true
  | .insertManyDone _ => true
  | _ => false

def containsMutation (tr : List Ev) : Bool := tr.any isMutation

def initOk : InitResult → Bool
  | .ok _ _ => true
  | _ => false

/-- Database events of initialise: the connection is opened after the URI
guards pass and before the models are created; a guard failure reaches no
database at all. -/
def initEvents (cfg : Config) (env : String → Option String)
    (modules : String → Option JVal) : List Ev :=
  match initialise cfg env modules with
  | .errNoUri => []
  | .errMismatch => []
  | _ => [.connect]

/-- Trace of run(): initialise, then all deleteMany calls, then all their
completions (in the scheduler order delOrd), then all insertMany calls, then
their completions (insOrd).  A failed initialise stops before any mutation. -/
def runEvents (cfg : Config) (env : String → Option String)
    (modules : String → Option JVal) (delOrd insOrd : List String) : List Ev :=
  initEvents cfg env modules ++
    match initialise cfg env modules with
    | .ok _ cols =>
        cols.map (fun c => Ev.deleteManyCall c.name)
        ++ delOrd.map Ev.deleteManyDone
        ++ cols.map (fun c => Ev.insertManyCall c.name)
        ++ insOrd.map Ev.insertManyDone
    | _ => []

/-- Trace of dryRun(): initialise, then one countDocuments per registered
collection (the pending-document counts read data.length and touch no
database). -/
def dryRunEvents (cfg : Config) (env : String → Option String)
    (modules : String → Option JVal) (countOrd : List String) : List Ev :=
  initEvents cfg env modules ++
    match initialise cfg env modules with
    | .ok _ cols => cols.map (fun c => Ev.countCall c.name) ++ countOrd.map Ev.countDone
    | _ => []

/-- Exit code of the promise chains: 0 on success, 1 when initialise threw. -/
def exitCode (r : InitResult) : Nat := if initOk r then 0 else 1

/-- The run() promise started by startRun, with the process exit appended by
its then/catch handlers. -/
def runThreadEvents (cfg : Config) (env : String → Option String)
    (modules : String → Option JVal) (delOrd insOrd : List String) : List Ev :=
  runEvents cfg env modules delOrd insOrd
    ++ [Ev.exit (exitCode (initialise cfg env modules))]

/-- Model of answer.toLowerCase(): lower-case every character. -/
def jsToLowerCase (s : String) : String := String.mk (s.toList.map Char.toLower)

/-- The readline callback: the answer arrives, and any answer other than y
exits the process with code 0. -/
def promptThread (answer : String) : List Ev :=
  Ev.answerDelivered answer ::
    (if jsToLowerCase answer == "y" then [] else [Ev.exit 0])

/-- An interleaving of two event sequences, preserving the order within
each. -/
inductive Interleave : List Ev → List Ev → List Ev → Prop where
  | nil : Interleave [] [] []
  | left {x xs ys zs} : Interleave xs ys zs → Interleave (x :: xs) ys (x :: zs)
  | right {y xs ys zs} : Interleave xs ys zs → Interleave xs (y :: ys) (y :: zs)

/-- The prefix of a trace up to and including the first process exit. -/
def truncAtExit : List Ev → List Ev
  | [] => []
  | e :: rest => e :: (if e matches Ev.exit _ then [] else truncAtExit rest)

/-- Behaviour of startRun (lines 366-387): with noPrompt the run promise
runs alone; without it the question is printed and the run promise is
started immediately, in the same tick, so the prompt callback events and the
run events interleave arbitrarily; the observable trace is cut at the first
process exit. -/
def StartRunBehavior (cfg : Config) (env : String → Option String)
    (modules : String → Option JVal) (answer : String)
    (delOrd insOrd : List String) (tr : List Ev) : Prop :=
  if cfg.noPrompt then
    tr = truncAtExit (runThreadEvents cfg env modules delOrd insOrd)
  else
    ∃ full,
      Interleave (promptThread answer) (runThreadEvents cfg env modules delOrd insOrd) full
      ∧ tr = truncAtExit (Ev.promptShown :: full)

/-- Behaviour of the entry dispatch (lines 389-390): dry run exactly when
argv[2] is --dry-run, the destructive run otherwise. -/
def ProgramBehavior (argv2 : Option String) (cfg : Config)
    (env : String → Option String) (modules : String → Option JVal)
    (answer : String) (delOrd insOrd countOrd : List String) (tr : List Ev) : Prop :=
  if argv2 = some "--dry-run" then
    tr = truncAtExit (dryRunEvents cfg env modules countOrd
      ++ [Ev.exit (exitCode (initialise cfg env modules))])
  else StartRunBehavior cfg env modules answer delOrd insOrd tr

theorem mem_truncAtExit (e : Ev) (l : List Ev) (h : e ∈ truncAtExit l) : e ∈ l := by
  induction l with
  | nil => simp [truncAtExit] at h
  | cons a rest ih =>
      simp only [truncAtExit] at h
      rcases List.mem_cons.mp h with h1 | h2
      · exact h1 ▸ List.mem_cons_self a rest
      · rw [List.mem_cons]
        right
        revert h2
        split
        · intro h2
          simp at h2
        · intro h2
          exact ih h2

theorem Interleave.nil_left (r : List Ev) : Interleave [] r r := by
  induction r with
  | nil => exact Interleave.nil
  | cons a as ih => exact Interleave.right ih

theorem Interleave.prepend_right (as : List Ev) {xs ys zs : List Ev}
    (h : Interleave xs ys zs) : Interleave xs (as ++ ys) (as ++ zs) := by
  induction as with
  | nil => simpa using h
  | cons a rest ih => exact Interleave.right ih

/-! ### Claim C6 -/

theorem pairwise_le_const (l : List Nat) (k : Nat) (h : ∀ x ∈ l, x = k) :
    l.Pairwise (fun a b => a ≤ b) := by
  induction l with
  | nil => exact List.Pairwise.nil
  | cons a as ih =>
      refine List.Pairwise.cons ?_ (ih ?_)
      · intro b hb
        rw [h a (List.mem_cons_self a as), h b (List.mem_cons_of_mem a hb)]
      · intro x hx
        exact h x (List.mem_cons_of_mem a hx)

theorem pairwise_le_of_bound (l₁ l₂ : List Nat) (k : Nat)
    (h₁ : ∀ x ∈ l₁, x ≤ k) (h₂ : ∀ x ∈ l₂, k ≤ x)
    (p₁ : l₁.Pairwise (fun a b => a ≤ b)) (p₂ : l₂.Pairwise (fun a b => a ≤ b)) :
    (l₁ ++ l₂).Pairwise (fun a b => a ≤ b) :=
  List.pairwise_append.mpr ⟨p₁, p₂, fun a ha b hb => le_trans (h₁ a ha) (h₂ b hb)⟩

/-- C6: in a destructive run, every collection has its deleteMany issued,
completed, and its insertMany issued; and the mapped phases of the whole run
trace are monotone, so all deletes are issued before any completes, every
delete completes before any insertMany is issued, and all inserts are issued
before any completes. -/
theorem run_deletes_complete_before_any_insert
    (cfg : Config) (env : String → Option String) (modules : String → Option JVal)
    (uri : JVal) (cols : List StandardCollection) (delOrd insOrd : List String)
    (hinit : initialise cfg env modules = .ok uri cols)
    (hd : delOrd.Perm (cols.map StandardCollection.name))
    (hi : insOrd.Perm (cols.map StandardCollection.name)) :
    (∀ c ∈ cols,
        Ev.deleteManyCall c.name ∈ runEvents cfg env modules delOrd insOrd
      ∧ Ev.deleteManyDone c.name ∈ runEvents cfg env modules delOrd insOrd
      ∧ Ev.insertManyCall c.name ∈ runEvents cfg env modules delOrd insOrd
      ∧ Ev.insertManyDone c.name ∈ runEvents cfg env modules delOrd insOrd)
    ∧ ((runEvents cfg env modules delOrd insOrd).map phase).Pairwise (fun a b => a ≤ b) := by
  have hre : runEvents cfg env modules delOrd insOrd
      = Ev.connect :: (cols.map (fun c => Ev.deleteManyCall c.name)
        ++ delOrd.map Ev.deleteManyDone
        ++ cols.map (fun c => Ev.insertManyCall c.name)
        ++ insOrd.map Ev.insertManyDone) := by
    unfold runEvents initEvents
    rw [hinit]
    rfl
  constructor
  · intro c hc
    rw [hre]
    refine ⟨?_, ?_, ?_, ?_⟩
    · exact List.mem_cons_of_mem _ (List.mem_append_left _ (List.mem_append_left _
        (List.mem_append_left _ (List.mem_map_of_mem _ hc))))
    · have hn : c.name ∈ delOrd := hd.mem_iff.mpr (List.mem_map_of_mem _ hc)
      exact List.mem_cons_of_mem _ (List.mem_append_left _ (List.mem_append_left _
        (List.mem_append_right _ (List.mem_map_of_mem _ hn))))
    · exact List.mem_cons_of_mem _ (List.mem_append_left _
        (List.mem_append_right _ (List.mem_map_of_mem _ hc)))
    · have hn : c.name ∈ insOrd := hi.mem_iff.mpr (List.mem_map_of_mem _ hc)
      exact List.mem_cons_of_mem _ (List.mem_append_right _ (List.mem_map_of_mem _ hn))
  · rw [hre]
    simp only [List.map_cons, List.map_append]
    rw [List.pairwise_cons]
    constructor
    · intro b _
      exact Nat.zero_le b
    · have hA : ∀ x ∈ (cols.map (fun c => Ev.deleteManyCall c.name)).map phase, x = 1 := by
        intro x hx
        obtain ⟨e, he, rfl⟩ := List.mem_map.mp hx
        obtain ⟨c, _, rfl⟩ := List.mem_map.mp he
        rfl
      have hB : ∀ x ∈ (delOrd.map Ev.deleteManyDone).map phase, x = 2 := by
        intro x hx
        obtain ⟨e, he, rfl⟩ := List.mem_map.mp hx
        obtain ⟨c, _, rfl⟩ := List.mem_map.mp he
        rfl
      have hC : ∀ x ∈ (cols.map (fun c => Ev.insertManyCall c.name)).map phase, x = 3 := by
        intro x hx
        obtain ⟨e, he, rfl⟩ := List.mem_map.mp hx
        obtain ⟨c, _, rfl⟩ := List.mem_map.mp he
        rfl
      have hD : ∀ x ∈ (insOrd.map Ev.insertManyDone).map phase, x = 4 := by
        intro x hx
        obtain ⟨e, he, rfl⟩ := List.mem_map.mp hx
        obtain ⟨c, _, rfl⟩ := List.mem_map.mp he
        rfl
      have pAB := pairwise_le_of_bound _ _ 1
        (fun x hx => le_of_eq (hA x hx))
        (fun x hx => by have := hB x hx; omega)
        (pairwise_le_const _ 1 hA) (pairwise_le_const _ 2 hB)
      have hABle : ∀ x ∈ (cols.map (fun c => Ev.deleteManyCall c.name)).map phase
          ++ (delOrd.map Ev.deleteManyDone).map phase, x ≤ 2 := by
        intro x hx
        rcases List.mem_append.mp hx with h | h
        · have := hA x h
          omega
        · have := hB x h
          omega
      have pABC := pairwise_le_of_bound _ _ 2 hABle
        (fun x hx => by have := hC x hx; omega)
        pAB (pairwise_le_const _ 3 hC)
      have hABCle : ∀ x ∈ ((cols.map (fun c => Ev.deleteManyCall c.name)).map phase
          ++ (delOrd.map Ev.deleteManyDone).map phase)
          ++ (cols.map (fun c => Ev.insertManyCall c.name)).map phase, x ≤ 3 := by
        intro x hx
        rcases List.mem_append.mp hx with h | h
        · exact le_trans (hABle x h) (by omega)
        · have := hC x h
          omega
      exact pairwise_le_of_bound _ _ 3 hABCle
        (fun x hx => by have := hD x hx; omega)
        pABC (pairwise_le_const _ 4 hD)

/-- The collection entry of the concrete run configuration: values supplied
through a users.json file. -/
def entryUsers : CollectionEntry := ⟨.undefined, .undefined, .str "users.json", .undefined⟩

/-- A concrete configuration with one collection backed by users.json. -/
def cfgRun : Config :=
  ⟨false, true, .str "mongodb://localhost:27017/my-database", [("users", entryUsers)]⟩

/-- The module map for the concrete run configuration. -/
def modulesRun : String → Option JVal :=
  fun s => if s == "users.json" then some moduleSeed else none

/-- An empty environment. -/
def envNone : String → Option String := fun _ => none

/-- The standardCollections produced by initialise on cfgRun. -/
def colsRun : List StandardCollection :=
  [⟨"users", .str "modelName", .obj [("fieldName", .str "String")],
    .arr [.obj [("fieldName", .str "value")]]⟩]

/-- The connect URI produced by initialise on cfgRun. -/
def uriRun : JVal := .str "mongodb://localhost:27017/my-database"

theorem run_deletes_complete_before_any_insert_witness :
    (∀ c ∈ colsRun,
        Ev.deleteManyCall c.name ∈ runEvents cfgRun envNone modulesRun ["users"] ["users"]
      ∧ Ev.deleteManyDone c.name ∈ runEvents cfgRun envNone modulesRun ["users"] ["users"]
      ∧ Ev.insertManyCall c.name ∈ runEvents cfgRun envNone modulesRun ["users"] ["users"]
      ∧ Ev.insertManyDone c.name ∈ runEvents cfgRun envNone modulesRun ["users"] ["users"])
    ∧ ((runEvents cfgRun envNone modulesRun ["users"] ["users"]).map phase).Pairwise
        (fun a b => a ≤ b) :=
  run_deletes_complete_before_any_insert cfgRun envNone modulesRun uriRun colsRun
    ["users"] ["users"] rfl (by decide) (by decide)

/-! ### Claim C5 -/

theorem no_mutation_of_init_not_ok (cfg : Config) (env : String → Option String)
    (modules : String → Option JVal) (delOrd insOrd : List String)
    (h : initOk (initialise cfg env modules) = false) :
    containsMutation (runEvents cfg env modules delOrd insOrd) = false := by
  unfold runEvents initEvents containsMutation
  revert h
  cases initialise cfg env modules <;> intro h
  · simp [isMutation]
  · simp [isMutation]
  · simp [isMutation]
  · simp [isMutation]
  · simp [initOk] at h

/-- C5 (amended): an invalid extension on a truthy configured path makes
initialise fail before reaching the database mutations (the null returned by
evaluateCollectionValues is destructured, which rejects modelsPromise), and
any failed initialise produces a run trace without a single deleteMany or
insertMany event.  A collection with neither data nor path, by contrast, is
only skipped (see the counterexample missing_data_is_not_fatal). -/
theorem invalid_extension_aborts_before_mutation
    (cfg : Config) (env : String → Option String) (modules : String → Option JVal)
    (delOrd insOrd : List String) (n : String) (e : CollectionEntry) (s : String)
    (hmem : (n, e) ∈ cfg.collections)
    (hpath : e.path = .str s) (hs0 : s ≠ "")
    (hbad : (validatePath s).ok = false) :
    initOk (initialise cfg env modules) = false
    ∧ containsMutation (runEvents cfg env modules delOrd insOrd) = false := by
  have hsb : (s != "") = true := bne_iff_ne.mpr hs0
  have hps : truthy (JVal.str s) = true := by simp [truthy, hsb]
  have hres : resolveCollection cfg.preferPath modules n e = .fatalNullDestructure := by
    simp [resolveCollection, hpath, hps, evaluateCollectionValues, hbad]
  have hfail : initOk (initialise cfg env modules) = false := by
    unfold initialise
    by_cases h1 : (!(truthy cfg.mongoUri) && ((presentUriEnvNames env).length == 0)) = true
    · simp [h1, initOk]
    · rw [Bool.not_eq_true] at h1
      by_cases h2 : ((decide (1 < (presentUriEnvNames env).length))
          || (((presentUriEnvNames env).length != 0)
              && !(jsStrictEq cfg.mongoUri (setValuesNext (presentUriEnvNames env))))) = true
      · simp [h1, h2, initOk]
      · rw [Bool.not_eq_true] at h2
        have hany : (cfg.collections.map
            (fun c => resolveCollection cfg.preferPath modules c.1 c.2)).any
              (fun o => o matches .fatalNullDestructure) = true := by
          rw [List.any_eq_true]
          exact ⟨.fatalNullDestructure, List.mem_map.mpr ⟨(n, e), hmem, hres⟩, rfl⟩
        simp [h1, h2, hany, initOk]
  exact ⟨hfail, no_mutation_of_init_not_ok _ _ _ _ _ hfail⟩

/-- A collection entry whose path has a rejected extension. -/
def entryBadExt : CollectionEntry := ⟨.undefined, .undefined, .str "data.txt", .undefined⟩

/-- A config containing only the bad-extension collection. -/
def cfgBadExt : Config :=
  ⟨false, true, .str "mongodb://localhost:27017/my-database", [("bad", entryBadExt)]⟩

theorem invalid_extension_aborts_before_mutation_witness :
    initOk (initialise cfgBadExt envNone modulesRun) = false
    ∧ containsMutation (runEvents cfgBadExt envNone modulesRun [] []) = false :=
  invalid_extension_aborts_before_mutation cfgBadExt envNone modulesRun [] []
    "bad" entryBadExt "data.txt" (List.mem_singleton.mpr rfl) rfl (by decide) rfl

/-- A config mixing a collection with neither data nor path and a valid
path-backed collection. -/
def cfgMix : Config :=
  ⟨false, true, .str "mongodb://localhost:27017/my-database",
    [("emptyColl", ⟨.undefined, .undefined, .undefined, .undefined⟩), ("users", entryUsers)]⟩

/-- C5 counterexample: a collection with neither data nor path is reported
and skipped but is not fatal: initialise still succeeds and the run goes on
to mutate the remaining collection, refuting the claim that this error class
is fatal before any deleteMany. -/
theorem missing_data_is_not_fatal :
    resolveCollection true modulesRun "emptyColl" ⟨.undefined, .undefined, .undefined, .undefined⟩
      = .skippedNoDataOrPath
    ∧ initOk (initialise cfgMix envNone modulesRun) = true
    ∧ containsMutation (runEvents cfgMix envNone modulesRun ["users"] ["users"]) = true :=
  ⟨rfl, rfl, rfl⟩

/-! ### Claim C7 -/

theorem dryRunEvents_no_mutation (cfg : Config) (env : String → Option String)
    (modules : String → Option JVal) (countOrd : List String) (x : Ev)
    (hx : x ∈ dryRunEvents cfg env modules countOrd) : isMutation x = false := by
  unfold dryRunEvents initEvents at hx
  revert hx
  cases initialise cfg env modules <;> intro hx
  · simp at hx
  · simp at hx
  · simp at hx
    subst hx
    rfl
  · simp at hx
    subst hx
    rfl
  · simp at hx
    rcases hx with hx | ⟨c, _, hx⟩ | ⟨a, _, hx⟩ <;> subst hx <;> rfl

/-- C7: under the dry-run dispatch, the resulting trace contains no
deleteMany or insertMany event at all, so the database contents are left
unchanged. -/
theorem dry_run_never_mutates
    (cfg : Config) (env : String → Option String) (modules : String → Option JVal)
    (answer : String) (delOrd insOrd countOrd : List String) (tr : List Ev)
    (hpb : ProgramBehavior (some "--dry-run") cfg env modules answer delOrd insOrd countOrd tr) :
    containsMutation tr = false := by
  simp only [ProgramBehavior, if_pos] at hpb
  subst hpb
  rw [Bool.eq_false_iff]
  intro hc
  unfold containsMutation at hc
  rw [List.any_eq_true] at hc
  obtain ⟨x, hx, hmut⟩ := hc
  have hx2 := mem_truncAtExit _ _ hx
  rcases List.mem_append.mp hx2 with h | h
  · rw [dryRunEvents_no_mutation cfg env modules countOrd x h] at hmut
    exact Bool.false_ne_true hmut
  · rw [List.mem_singleton] at h
    subst h
    exact Bool.false_ne_true hmut

theorem dry_run_never_mutates_witness :
    containsMutation (truncAtExit (dryRunEvents cfgRun envNone modulesRun ["users"]
      ++ [Ev.exit (exitCode (initialise cfgRun envNone modulesRun))])) = false :=
  dry_run_never_mutates cfgRun envNone modulesRun "n" [] [] ["users"]
    (truncAtExit (dryRunEvents cfgRun envNone modulesRun ["users"]
      ++ [Ev.exit (exitCode (initialise cfgRun envNone modulesRun))]))
    (by simp [ProgramBehavior])

/-! ### Claim C1 -/

/-- The full interleaving in which the whole run thread executes before the
user answer arrives. -/
def c1Full : List Ev :=
  [Ev.connect, Ev.deleteManyCall "users", Ev.deleteManyDone "users",
   Ev.insertManyCall "users", Ev.insertManyDone "users",
   Ev.answerDelivered "n", Ev.exit 0, Ev.exit 0]

/-- The observable trace of that interleaving, cut at the first exit. -/
def c1Trace : List Ev :=
  [Ev.promptShown, Ev.connect, Ev.deleteManyCall "users", Ev.deleteManyDone "users",
   Ev.insertManyCall "users", Ev.insertManyDone "users",
   Ev.answerDelivered "n", Ev.exit 0]

/-- C1 (code bug): with noPrompt false, startRun starts the run promise in
the same tick as it registers the prompt callback, so the execution in which
every delete and insert completes before the user answers n is admissible:
the trace mutates the database although no y answer ever occurs, refuting
the claim that nothing is deleted or inserted until the user answers y. -/
theorem run_mutates_before_prompt_answer :
    StartRunBehavior cfgRun envNone modulesRun "n" ["users"] ["users"] c1Trace
    ∧ containsMutation c1Trace = true
    ∧ Ev.answerDelivered "n" ∈ c1Trace
    ∧ c1Trace.all (fun e => !(e matches Ev.answerDelivered "y")) = true := by
  refine ⟨?_, by decide, by decide, by decide⟩
  have hnp : cfgRun.noPrompt = false := rfl
  simp only [StartRunBehavior, hnp, Bool.false_eq_true, if_false]
  refine ⟨c1Full, ?_, by decide⟩
  have h1 : promptThread "n" = [Ev.answerDelivered "n", Ev.exit 0] := rfl
  have h2 : runThreadEvents cfgRun envNone modulesRun ["users"] ["users"]
      = [Ev.connect, Ev.deleteManyCall "users", Ev.deleteManyDone "users",
         Ev.insertManyCall "users", Ev.insertManyDone "users"] ++ [Ev.exit 0] := rfl
  rw [h1, h2]
  show Interleave [Ev.answerDelivered "n", Ev.exit 0]
    ([Ev.connect, Ev.deleteManyCall "users", Ev.deleteManyDone "users",
      Ev.insertManyCall "users", Ev.insertManyDone "users"] ++ [Ev.exit 0])
    ([Ev.connect, Ev.deleteManyCall "users", Ev.deleteManyDone "users",
      Ev.insertManyCall "users", Ev.insertManyDone "users"]
      ++ [Ev.answerDelivered "n", Ev.exit 0, Ev.exit 0])
  exact Interleave.prepend_right _
    (Interleave.left (Interleave.left (Interleave.nil_left [Ev.exit 0])))

/-! ### Claim C10: logDebugData (lines 93-100) and the config file -/

/-- The configuration object of src/config.js as a JavaScript object, with
the URI and the sensitive-debug flag as parameters. -/
def configFileObj (mongoUri : String) (sensitiveDebugLog : Bool) : JVal :=
  .obj [("noPrompt", .bool false),
        ("preferPath", .bool true),
        ("logLevel", .str "debug"),
        ("mongoUri", .str mongoUri),
        ("sensitiveDebugLog", .bool sensitiveDebugLog),
        ("collections", .obj [("collectionName", .obj
          [("schema", .obj [("fieldName", .obj
              [("type", .str "String"), ("required", .bool true)])]),
           ("model", .str "modelName"),
           ("data", .arr [.obj [("fieldName", .str "value")]]),
           ("path", .str "path/to/file.json")])])]

/-- Rest destructuring: the object with the given key removed. -/
def objRemoveKey : JVal → String → JVal
  | .obj fields, k => .obj (fields.filter (fun f => f.1 != k))
  | v, _ => v

/-- The config value stringified by logDebugData at debug level: the code
destructures dbUri out of the config object and then prints printableConfig
when config.insecureDebugLog is truthy, the full config otherwise. -/
def logDebugDataConfigDump (config : JVal) : JVal :=
  let printableConfig := objRemoveKey config "dbUri"
  if truthy (objGet config "insecureDebugLog") then printableConfig else config

/-- C10 (code bug): for the configuration shape of this repository the debug
dump always contains the mongoUri value, whatever sensitiveDebugLog says:
the code tests the nonexistent key insecureDebugLog, its branches are
inverted, and the key it would remove, dbUri, does not exist either. -/
theorem debug_dump_always_contains_mongo_uri (uri : String) (flag : Bool) :
    objGet (logDebugDataConfigDump (configFileObj uri flag)) "mongoUri" = .str uri
    ∧ logDebugDataConfigDump (configFileObj uri flag) = configFileObj uri flag :=
  ⟨rfl, rfl⟩

theorem debug_dump_always_contains_mongo_uri_witness :
    objGet (logDebugDataConfigDump
        (configFileObj "mongodb://localhost:27017/my-database" false)) "mongoUri"
      = .str "mongodb://localhost:27017/my-database"
    ∧ logDebugDataConfigDump (configFileObj "mongodb://localhost:27017/my-database" false)
      = configFileObj "mongodb://localhost:27017/my-database" false :=
  debug_dump_always_contains_mongo_uri "mongodb://localhost:27017/my-database" false

end ResetDb
